import Mathlib

/-!
Verification of the context-retrieval / reranking core of the NL2SQL_system
repository: the similarity normalizer, the diversified (MMR) selector and the
prompt assembler, shallowly embedded from `rag_ingest/rag_query.py` and
`services/python-llm/main.py`.

Modelling conventions: Python floats are exact rationals (`ℚ`), Python ints
are `Int` (counts that are provably non-negative are `Nat`), Python `None`
is `Option.none`, a Python dict used as a counter is a total function with
default value 0, and the candidate dicts are records.  The two copies of
`mmr_select` (one per file) are embedded separately, in namespaces
`RagQuery` and `MainPy`, mirroring their respective files.
-/

attribute [local semireducible] Rat.mul Rat.add Rat.sub Rat.inv

/-- A candidate row after score conversion, exactly the dict appended by both
score-conversion loops: keys `item_id, kind, name, chunk_ix, chunk_text,
dist, sim` (where `sim = 1 - dist` is set by the loop). -/
structure Chunk where
  item_id : Nat
  kind : String
  name : String
  chunk_ix : Nat
  chunk_text : String
  dist : ℚ
  sim : ℚ
deriving DecidableEq, Inhabited

/-- A raw row coming back from the vector store (the SQL SELECT), before the
score-conversion loop runs: `item_id, kind, name, chunk_ix, chunk_text, dist`. -/
structure Row where
  item_id : Nat
  kind : String
  name : String
  chunk_ix : Nat
  chunk_text : String
  dist : ℚ
deriving DecidableEq, Inhabited

/-- The dict both score-conversion loops append: every column copied through
and `sim = 1.0 - dist` (cosine distance to similarity). -/
def toChunk (r : Row) : Chunk :=
  { item_id := r.item_id, kind := r.kind, name := r.name, chunk_ix := r.chunk_ix,
    chunk_text := r.chunk_text, dist := r.dist, sim := 1 - r.dist }

/-- `cands[i]["item_id"]`.  All call sites index with `i < cands.length`, so the
default value is never read. -/
def itemAt (cands : List Chunk) (i : Nat) : Nat := (cands.getD i default).item_id

/-- `cands[i]["sim"]`. -/
def simAt (cands : List Chunk) (i : Nat) : ℚ := (cands.getD i default).sim

/-- Python truthiness of an optional string argument: `None` and `""` are
falsy, every other string (even pure whitespace) is truthy. -/
def strTruthy : Option String → Bool
  | none => false
  | some s => !(s == "")

/-- Python `str.strip()`: drop leading and trailing whitespace.  (Implemented
over the character list, which evaluates on concrete documents; Lean's own
`String.trim` is byte-position based and does not reduce in the kernel.) -/
def pyStrip (s : String) : String :=
  ⟨((s.data.dropWhile Char.isWhitespace).reverse.dropWhile Char.isWhitespace).reverse⟩

namespace RagQuery

/-- `same_item_penalty(i, selected, cands)` from `rag_query.py`: `1.0` when
some already-selected index shares its `item_id` with `i`, else `0.0`. -/
def same_item_penalty (cands : List Chunk) (i : Nat) (selected : List Nat) : ℚ :=
  if selected.any (fun j => itemAt cands j == itemAt cands i) then 1 else 0

/-- The per-item-cap skip test: Python `if per_item_cap:` (so `None` and `0`
are falsy and disable the cap, any other integer enables it) followed by
`used_per_item.get(item_id, 0) >= per_item_cap`. -/
def capSkip (cap : Option Int) (cnt : Nat) : Bool :=
  match cap with
  | none => false
  | some c => if c = 0 then false else decide (c ≤ (cnt : Int))

/-- The MMR score `lam*cands[i]["sim"] - (1.0-lam)*same_item_penalty(i, selected, cands)`. -/
def mmrScore (cands : List Chunk) (lam : ℚ) (selected : List Nat) (i : Nat) : ℚ :=
  lam * simAt cands i - (1 - lam) * same_item_penalty cands i selected

/-- One iteration of the inner `for i in range(len(cands))` scan of
`mmr_select`: skip already-selected indices, skip indices whose item is at the
cap, otherwise keep the running best `(best_i, best_score)` pair, replacing it
only on a strictly greater score. -/
def scanStep (cands : List Chunk) (lam : ℚ) (cap : Option Int) (selected : List Nat)
    (used : Nat → Nat) (acc : Option Nat × ℚ) (i : Nat) : Option Nat × ℚ :=
  if i ∈ selected then acc
  else if capSkip cap (used (itemAt cands i)) then acc
  else if mmrScore cands lam selected i > acc.2 then (some i, mmrScore cands lam selected i)
  else acc

/-- The whole inner scan: `best_i, best_score = None, -1e9` followed by the
`for i in range(len(cands))` loop. -/
def scanBest (cands : List Chunk) (lam : ℚ) (cap : Option Int) (selected : List Nat)
    (used : Nat → Nat) : Option Nat × ℚ :=
  (List.range cands.length).foldl (scanStep cands lam cap selected used) (none, -1000000000)

/-- `max(range(len(cands)), key=lambda i: cands[i]["sim"])`: the first index of
maximal similarity (Python `max` keeps the earliest maximum). -/
def argmaxSim (cands : List Chunk) : Nat :=
  (List.range cands.length).foldl
    (fun best i => if simAt cands i > simAt cands best then i else best) 0

/-- The `while len(selected) < k and len(selected) < len(cands)` loop of
`mmr_select`.  Each iteration appends at most one index, so the loop performs
fewer than `k` iterations; the `fuel` argument (instantiated with `k.toNat`,
see `mmr_select`) only makes the recursion structural and never cuts the loop
short. -/
def mmrLoop (cands : List Chunk) (lam : ℚ) (cap : Option Int) (k : Int) :
    Nat → List Nat → (Nat → Nat) → List Nat
  | 0, selected, _ => selected
  | fuel + 1, selected, used =>
    if (selected.length : Int) < k ∧ selected.length < cands.length then
      match (scanBest cands lam cap selected used).1 with
      | none => selected
      | some i =>
        mmrLoop cands lam cap k fuel (selected ++ [i])
          (fun it => if it = itemAt cands i then used it + 1 else used it)
    else selected

/-- `mmr_select(cands, k, lam, per_item_cap)` from `rag_query.py`: empty input
returns the empty selection; otherwise the highest-similarity candidate is
seeded (its item marked used once) and the while loop greedily appends the
best-scoring eligible index until `k` is reached, the pool is exhausted, or no
eligible candidate remains. -/
def mmr_select (cands : List Chunk) (k : Int) (lam : ℚ) (per_item_cap : Option Int) : List Nat :=
  if cands.isEmpty then []
  else
    mmrLoop cands lam per_item_cap k k.toNat [argmaxSim cands]
      (fun it => if it = itemAt cands (argmaxSim cands) then 1 else 0)

/-- The `lines` list built by `build_prompt` in `rag_query.py`: optional
trimmed header, then always the retrieved-context marker (which carries its
own leading newline), then one entry `tag + "\n" + chunk_text` per chunk (the
tag is empty when `cite` is off), then, if a footer is given, the instructions
marker and the trimmed footer. -/
def build_prompt_lines (chunks : List Chunk) (header footer : Option String)
    (cite : Bool) : List String :=
  (if strTruthy header then [pyStrip (header.getD "")] else [])
    ++ ["\n--- Retrieved context ---"]
    ++ chunks.map (fun c =>
        (if cite then "[" ++ c.kind ++ ":" ++ c.name ++ "#" ++ toString c.chunk_ix ++ "]"
         else "")
          ++ "\n" ++ c.chunk_text)
    ++ (if strTruthy footer then ["\n--- Instructions ---", pyStrip (footer.getD "")] else [])

/-- `build_prompt` from `rag_query.py`: `"\n\n".join(lines)`. -/
def build_prompt (chunks : List Chunk) (header footer : Option String) (cite : Bool) : String :=
  String.intercalate "\n\n" (build_prompt_lines chunks header footer cite)

/-- The drop test of the score-conversion loop in `rag_query.main`:
`args.min_sim is not None and sim < args.min_sim`. -/
def minSimDrop (min_sim : Option ℚ) (sim : ℚ) : Bool :=
  match min_sim with
  | none => false
  | some t => decide (sim < t)

/-- The score-conversion loop of `rag_query.main`: each fetched row gets
`sim = 1.0 - dist`; rows with `sim` strictly below `--min-sim` (when that flag
is given) are skipped, every other row is appended in fetch order. -/
def score_convert (min_sim : Option ℚ) : List Row → List Chunk
  | [] => []
  | r :: rs =>
    if minSimDrop min_sim (1 - r.dist) then score_convert min_sim rs
    else toChunk r :: score_convert min_sim rs

end RagQuery

namespace MainPy

/-- `same_item_penalty` from `services/python-llm/main.py` (textually identical
to the `rag_query.py` copy). -/
def same_item_penalty (cands : List Chunk) (i : Nat) (selected : List Nat) : ℚ :=
  if selected.any (fun j => itemAt cands j == itemAt cands i) then 1 else 0

/-- The per-item-cap skip test of the `main.py` copy of `mmr_select`. -/
def capSkip (cap : Option Int) (cnt : Nat) : Bool :=
  match cap with
  | none => false
  | some c => if c = 0 then false else decide (c ≤ (cnt : Int))

/-- The MMR score of the `main.py` copy. -/
def mmrScore (cands : List Chunk) (lam : ℚ) (selected : List Nat) (i : Nat) : ℚ :=
  lam * simAt cands i - (1 - lam) * same_item_penalty cands i selected

/-- One iteration of the inner scan of the `main.py` copy of `mmr_select`. -/
def scanStep (cands : List Chunk) (lam : ℚ) (cap : Option Int) (selected : List Nat)
    (used : Nat → Nat) (acc : Option Nat × ℚ) (i : Nat) : Option Nat × ℚ :=
  if i ∈ selected then acc
  else if capSkip cap (used (itemAt cands i)) then acc
  else if mmrScore cands lam selected i > acc.2 then (some i, mmrScore cands lam selected i)
  else acc

/-- The inner scan of the `main.py` copy of `mmr_select`. -/
def scanBest (cands : List Chunk) (lam : ℚ) (cap : Option Int) (selected : List Nat)
    (used : Nat → Nat) : Option Nat × ℚ :=
  (List.range cands.length).foldl (scanStep cands lam cap selected used) (none, -1000000000)

/-- The seed pick of the `main.py` copy of `mmr_select`. -/
def argmaxSim (cands : List Chunk) : Nat :=
  (List.range cands.length).foldl
    (fun best i => if simAt cands i > simAt cands best then i else best) 0

/-- The while loop of the `main.py` copy of `mmr_select`. -/
def mmrLoop (cands : List Chunk) (lam : ℚ) (cap : Option Int) (k : Int) :
    Nat → List Nat → (Nat → Nat) → List Nat
  | 0, selected, _ => selected
  | fuel + 1, selected, used =>
    if (selected.length : Int) < k ∧ selected.length < cands.length then
      match (scanBest cands lam cap selected used).1 with
      | none => selected
      | some i =>
        mmrLoop cands lam cap k fuel (selected ++ [i])
          (fun it => if it = itemAt cands i then used it + 1 else used it)
    else selected

/-- `mmr_select` from `services/python-llm/main.py` (lines 123-159), embedded
separately from the `rag_query.py` copy so that their agreement is a theorem
rather than an assumption. -/
def mmr_select (cands : List Chunk) (k : Int) (lam : ℚ) (per_item_cap : Option Int) : List Nat :=
  if cands.isEmpty then []
  else
    mmrLoop cands lam per_item_cap k k.toNat [argmaxSim cands]
      (fun it => if it = itemAt cands (argmaxSim cands) then 1 else 0)

/-- The `lines` list built by `build_prompt` in `main.py`.  Unlike the
`rag_query.py` version, the retrieved-context marker sits INSIDE the
`if header:` block, so it is emitted only when a header is passed. -/
def build_prompt_lines (chunks : List Chunk) (header footer : Option String)
    (cite : Bool) : List String :=
  (if strTruthy header then [pyStrip (header.getD ""), "\n--- Retrieved context ---"] else [])
    ++ chunks.map (fun c =>
        (if cite then "[" ++ c.kind ++ ":" ++ c.name ++ "#" ++ toString c.chunk_ix ++ "]"
         else "")
          ++ "\n" ++ c.chunk_text)
    ++ (if strTruthy footer then ["\n--- Instructions ---", pyStrip (footer.getD "")] else [])

/-- `build_prompt` from `main.py`: `"\n\n".join(lines)`. -/
def build_prompt (chunks : List Chunk) (header footer : Option String) (cite : Bool) : String :=
  String.intercalate "\n\n" (build_prompt_lines chunks header footer cite)

/-- The score-conversion loop inside `search_rag_context` (`main.py` lines
236-259): every fetched row is converted (`sim = 1.0 - dist`) and appended to
`cands` unconditionally, while rows with `sim` strictly greater than the
hard-coded `min_sim = 0.60` are additionally appended to the global
`intuition_rags`.  Returns `(appended intuition rows, cands)`. -/
def score_convert (rows : List Row) : List Chunk × List Chunk :=
  match rows with
  | [] => ([], [])
  | r :: rs =>
    let c := toChunk r
    let p := score_convert rs
    (if c.sim > mkRat 60 100 then c :: p.1 else p.1, c :: p.2)

/-- The pure core of `search_rag_context` (`main.py` lines 183-283).  The
process-global mutable list `intuition_rags` is made explicit: it is passed in
and its post-call value is returned alongside the optional prompt.  `rows` is
the list the vector store returned for the question.  Retrieval constants are
the hard-coded `topk = 12`, `per_item_cap = 8`, `mmr = 0.5`.  When
`same_query` is true the fetch and score conversion are skipped and the
accumulated `intuition_rags` are reused; the local `cands` is then unbound in
Python, and no caller reaches that path with `for_intuition = False`, so it is
modelled as `[]`. -/
def search_rag_context (intuition_rags : List Chunk) (rows : List Row)
    (for_intuition same_query : Bool) : List Chunk × Option String :=
  let conv := score_convert rows
  let rags := if same_query then intuition_rags else intuition_rags ++ conv.1
  let cands := if same_query then [] else conv.2
  let pool := if for_intuition then rags else cands
  let final := (mmr_select pool 12 (mkRat 1 2) (some 8)).map (fun i => pool.getD i default)
  (rags, if final.isEmpty then none else some (build_prompt final none none true))

end MainPy

namespace SpecModel

/-- Modelled from the spec: one scan step of the greedy "top-K by similarity"
pick - skip selected candidates and candidates whose group reached the cap
(spec cap semantics: 0/unset unlimited), otherwise keep the
highest-similarity candidate seen so far, earliest position winning ties. -/
def pickStep (cands : List Chunk) (cap : Option Int) (selected : List Nat)
    (used : Nat → Nat) (acc : Option (Nat × ℚ)) (i : Nat) : Option (Nat × ℚ) :=
  if i ∈ selected then acc
  else if RagQuery.capSkip cap (used (itemAt cands i)) then acc
  else
    match acc with
    | none => some (i, simAt cands i)
    | some (b, s) => if simAt cands i > s then some (i, simAt cands i) else some (b, s)

/-- Modelled from the spec: one greedy pick of "top-K by similarity, subject
only to the per-group cap" - among the candidates not yet selected and whose
group has not reached the cap, the one with the highest similarity, earliest
input position winning ties.  Returns `none` when no candidate is eligible. -/
def pickTop (cands : List Chunk) (cap : Option Int) (selected : List Nat)
    (used : Nat → Nat) : Option (Nat × ℚ) :=
  (List.range cands.length).foldl (pickStep cands cap selected used) none

/-- Modelled from the spec: the greedy top-K loop - keep picking the
highest-similarity eligible candidate (updating the picked group's usage
counter) until `k` picks are made or no candidate is eligible. -/
def topKLoop (cands : List Chunk) (cap : Option Int) (k : Int) :
    Nat → List Nat → (Nat → Nat) → List Nat
  | 0, selected, _ => selected
  | fuel + 1, selected, used =>
    if (selected.length : Int) < k then
      match pickTop cands cap selected used with
      | none => selected
      | some (i, _) =>
        topKLoop cands cap k fuel (selected ++ [i])
          (fun it => if it = itemAt cands i then used it + 1 else used it)
    else selected

/-- Modelled from the spec: "top-K candidates by similarity subject only to
the per-group cap" (spec section 8, lambda = 1 clause). -/
def topK_by_sim (cands : List Chunk) (k : Int) (cap : Option Int) : List Nat :=
  topKLoop cands cap k k.toNat [] (fun _ => 0)

end SpecModel

namespace RagQuery

/-- Proof infrastructure: the state of the inner scan of `mmr_select` after
processing indices `0 .. m-1`. -/
def scanAcc (cands : List Chunk) (lam : ℚ) (cap : Option Int) (selected : List Nat)
    (used : Nat → Nat) (m : Nat) : Option Nat × ℚ :=
  (List.range m).foldl (scanStep cands lam cap selected used) (none, -1000000000)

lemma scanBest_eq_scanAcc (cands : List Chunk) (lam : ℚ) (cap : Option Int)
    (selected : List Nat) (used : Nat → Nat) :
    scanBest cands lam cap selected used = scanAcc cands lam cap selected used cands.length :=
  rfl

lemma scanAcc_succ (cands : List Chunk) (lam : ℚ) (cap : Option Int) (selected : List Nat)
    (used : Nat → Nat) (m : Nat) :
    scanAcc cands lam cap selected used (m + 1) =
      scanStep cands lam cap selected used (scanAcc cands lam cap selected used m) m := by
  simp [scanAcc, List.range_succ]

/-- Characterization of the inner scan of `mmr_select` over the first `m`
indices: when it returns `some i`, the index `i` is eligible (unselected and
under the cap), its score exceeds the `-1e9` floor, no eligible index scores
higher, and every eligible index with an equal score lies at or after `i`;
when it returns `none`, every eligible index scores at most the floor. -/
lemma scanAcc_spec (cands : List Chunk) (lam : ℚ) (cap : Option Int) (selected : List Nat)
    (used : Nat → Nat) : ∀ m : Nat,
    ((scanAcc cands lam cap selected used m).1 = none →
        (scanAcc cands lam cap selected used m).2 = -1000000000 ∧
        ∀ j, j < m → j ∉ selected → capSkip cap (used (itemAt cands j)) = false →
          mmrScore cands lam selected j ≤ -1000000000) ∧
    (∀ i, (scanAcc cands lam cap selected used m).1 = some i →
        i < m ∧ i ∉ selected ∧ capSkip cap (used (itemAt cands i)) = false ∧
        (scanAcc cands lam cap selected used m).2 = mmrScore cands lam selected i ∧
        -1000000000 < mmrScore cands lam selected i ∧
        (∀ j, j < m → j ∉ selected → capSkip cap (used (itemAt cands j)) = false →
          mmrScore cands lam selected j ≤ mmrScore cands lam selected i) ∧
        (∀ j, j < m → j ∉ selected → capSkip cap (used (itemAt cands j)) = false →
          mmrScore cands lam selected j = mmrScore cands lam selected i → i ≤ j)) := by
  intro m
  induction m with
  | zero =>
    constructor
    · intro _
      exact ⟨rfl, by intro j hj; omega⟩
    · intro i hi
      simp [scanAcc] at hi
  | succ m ih =>
    rw [scanAcc_succ]
    obtain ⟨ihNone, ihSome⟩ := ih
    by_cases h1 : m ∈ selected
    · simp only [scanStep, if_pos h1]
      constructor
      · intro hn
        obtain ⟨hv, hall⟩ := ihNone hn
        refine ⟨hv, ?_⟩
        intro j hj hjs hjc
        rcases Nat.lt_succ_iff_lt_or_eq.mp hj with hlt | rfl
        · exact hall j hlt hjs hjc
        · exact absurd h1 hjs
      · intro i hi
        obtain ⟨hm, hs1, hs2, hv, hfl, hmax, htie⟩ := ihSome i hi
        refine ⟨by omega, hs1, hs2, hv, hfl, ?_, ?_⟩
        · intro j hj hjs hjc
          rcases Nat.lt_succ_iff_lt_or_eq.mp hj with hlt | rfl
          · exact hmax j hlt hjs hjc
          · exact absurd h1 hjs
        · intro j hj hjs hjc heq
          rcases Nat.lt_succ_iff_lt_or_eq.mp hj with hlt | rfl
          · exact htie j hlt hjs hjc heq
          · exact absurd h1 hjs
    · by_cases h2 : capSkip cap (used (itemAt cands m)) = true
      · simp only [scanStep, if_neg h1, if_pos h2]
        constructor
        · intro hn
          obtain ⟨hv, hall⟩ := ihNone hn
          refine ⟨hv, ?_⟩
          intro j hj hjs hjc
          rcases Nat.lt_succ_iff_lt_or_eq.mp hj with hlt | rfl
          · exact hall j hlt hjs hjc
          · exact absurd h2 (by simp [hjc])
        · intro i hi
          obtain ⟨hm, hs1, hs2, hv, hfl, hmax, htie⟩ := ihSome i hi
          refine ⟨by omega, hs1, hs2, hv, hfl, ?_, ?_⟩
          · intro j hj hjs hjc
            rcases Nat.lt_succ_iff_lt_or_eq.mp hj with hlt | rfl
            · exact hmax j hlt hjs hjc
            · exact absurd h2 (by simp [hjc])
          · intro j hj hjs hjc heq
            rcases Nat.lt_succ_iff_lt_or_eq.mp hj with hlt | rfl
            · exact htie j hlt hjs hjc heq
            · exact absurd h2 (by simp [hjc])
      · have h2' : capSkip cap (used (itemAt cands m)) = false := by
          revert h2; cases capSkip cap (used (itemAt cands m)) <;> simp
        have h2'' : ¬(capSkip cap (used (itemAt cands m)) = true) := by simp [h2']
        by_cases h3 :
            mmrScore cands lam selected m > (scanAcc cands lam cap selected used m).2
        · have hstep : scanStep cands lam cap selected used
              (scanAcc cands lam cap selected used m) m =
              (some m, mmrScore cands lam selected m) := by
            simp only [scanStep]
            rw [if_neg h1, if_neg h2'', if_pos h3]
          rw [hstep]
          have hfloor : -1000000000 < mmrScore cands lam selected m := by
            rcases ha : (scanAcc cands lam cap selected used m).1 with _ | b
            · have := (ihNone ha).1
              rw [this] at h3
              exact h3
            · obtain ⟨_, _, _, hv, hfl, _, _⟩ := ihSome b ha
              rw [hv] at h3
              linarith
          have hdom : ∀ j, j < m → j ∉ selected →
              capSkip cap (used (itemAt cands j)) = false →
              mmrScore cands lam selected j < mmrScore cands lam selected m := by
            intro j hlt hjs hjc
            rcases ha : (scanAcc cands lam cap selected used m).1 with _ | b
            · have := (ihNone ha).2 j hlt hjs hjc
              have hv := (ihNone ha).1
              rw [hv] at h3
              linarith
            · obtain ⟨_, _, _, hv, _, hmax, _⟩ := ihSome b ha
              have := hmax j hlt hjs hjc
              rw [hv] at h3
              linarith
          constructor
          · intro hn
            exact absurd hn (by simp)
          · intro i hi
            obtain rfl : m = i := Option.some.inj hi
            refine ⟨by omega, h1, h2', rfl, hfloor, ?_, ?_⟩
            · intro j hj hjs hjc
              rcases Nat.lt_succ_iff_lt_or_eq.mp hj with hlt | rfl
              · exact le_of_lt (hdom j hlt hjs hjc)
              · exact le_refl _
            · intro j hj hjs hjc heq
              rcases Nat.lt_succ_iff_lt_or_eq.mp hj with hlt | rfl
              · exact absurd heq (ne_of_lt (hdom j hlt hjs hjc))
              · exact le_refl _
        · have hstep : scanStep cands lam cap selected used
              (scanAcc cands lam cap selected used m) m =
              scanAcc cands lam cap selected used m := by
            simp only [scanStep]
            rw [if_neg h1, if_neg h2'', if_neg h3]
          rw [hstep]
          have h3' : mmrScore cands lam selected m ≤ (scanAcc cands lam cap selected used m).2 :=
            le_of_not_lt h3
          constructor
          · intro hn
            obtain ⟨hv, hall⟩ := ihNone hn
            refine ⟨hv, ?_⟩
            intro j hj hjs hjc
            rcases Nat.lt_succ_iff_lt_or_eq.mp hj with hlt | rfl
            · exact hall j hlt hjs hjc
            · rw [hv] at h3'
              exact h3'
          · intro i hi
            obtain ⟨hm, hs1, hs2, hv, hfl, hmax, htie⟩ := ihSome i hi
            refine ⟨by omega, hs1, hs2, hv, hfl, ?_, ?_⟩
            · intro j hj hjs hjc
              rcases Nat.lt_succ_iff_lt_or_eq.mp hj with hlt | rfl
              · exact hmax j hlt hjs hjc
              · rw [hv] at h3'
                exact h3'
            · intro j hj hjs hjc heq
              rcases Nat.lt_succ_iff_lt_or_eq.mp hj with hlt | rfl
              · exact htie j hlt hjs hjc heq
              · rw [hv] at h3'
                rw [heq] at h3'
                omega

/-- Unfolding: zero fuel returns the selection unchanged. -/
lemma mmrLoop_zero (cands : List Chunk) (lam : ℚ) (cap : Option Int) (k : Int)
    (sel : List Nat) (used : Nat → Nat) : mmrLoop cands lam cap k 0 sel used = sel := rfl

/-- Unfolding: when the while condition fails, the loop stops. -/
lemma mmrLoop_succ_stop (cands : List Chunk) (lam : ℚ) (cap : Option Int) (k : Int)
    (f : Nat) (sel : List Nat) (used : Nat → Nat)
    (hc : ¬((sel.length : Int) < k ∧ sel.length < cands.length)) :
    mmrLoop cands lam cap k (f + 1) sel used = sel := by
  simp only [mmrLoop]
  rw [if_neg hc]

/-- Unfolding: when the scan finds no eligible candidate, the loop breaks. -/
lemma mmrLoop_succ_none (cands : List Chunk) (lam : ℚ) (cap : Option Int) (k : Int)
    (f : Nat) (sel : List Nat) (used : Nat → Nat)
    (hc : (sel.length : Int) < k ∧ sel.length < cands.length)
    (hs : (scanBest cands lam cap sel used).1 = none) :
    mmrLoop cands lam cap k (f + 1) sel used = sel := by
  simp only [mmrLoop]
  rw [if_pos hc]
  simp only [hs]

/-- Unfolding: when the scan finds a best index, the loop appends it, bumps
its item's usage counter, and continues. -/
lemma mmrLoop_succ_some (cands : List Chunk) (lam : ℚ) (cap : Option Int) (k : Int)
    (f : Nat) (sel : List Nat) (used : Nat → Nat) (i : Nat)
    (hc : (sel.length : Int) < k ∧ sel.length < cands.length)
    (hs : (scanBest cands lam cap sel used).1 = some i) :
    mmrLoop cands lam cap k (f + 1) sel used =
      mmrLoop cands lam cap k f (sel ++ [i])
        (fun it => if it = itemAt cands i then used it + 1 else used it) := by
  simp only [mmrLoop]
  rw [if_pos hc]
  simp only [hs]

/-- The loop of `mmr_select` only ever appends to the current selection. -/
lemma mmrLoop_extends (cands : List Chunk) (lam : ℚ) (cap : Option Int) (k : Int) :
    ∀ (fuel : Nat) (sel : List Nat) (used : Nat → Nat),
    ∃ t, mmrLoop cands lam cap k fuel sel used = sel ++ t := by
  intro fuel
  induction fuel with
  | zero => intro sel used; exact ⟨[], by simp [mmrLoop_zero]⟩
  | succ f ih =>
    intro sel used
    by_cases hc : (sel.length : Int) < k ∧ sel.length < cands.length
    · cases hs : (scanBest cands lam cap sel used).1 with
      | none => exact ⟨[], by rw [mmrLoop_succ_none cands lam cap k f sel used hc hs]; simp⟩
      | some i =>
        obtain ⟨t, ht⟩ :=
          ih (sel ++ [i]) (fun it => if it = itemAt cands i then used it + 1 else used it)
        refine ⟨i :: t, ?_⟩
        rw [mmrLoop_succ_some cands lam cap k f sel used i hc hs, ht]
        simp
    · exact ⟨[], by rw [mmrLoop_succ_stop cands lam cap k f sel used hc]; simp⟩

/-- The fuel argument of `mmrLoop` is irrelevant as long as it covers the
remaining `k - len` iterations: the loop is really bounded by its own
condition, exactly like the Python `while` loop. -/
lemma mmrLoop_fuel (cands : List Chunk) (lam : ℚ) (cap : Option Int) (k : Int) :
    ∀ (fuel₁ fuel₂ : Nat) (sel : List Nat) (used : Nat → Nat),
    k ≤ (sel.length : Int) + (fuel₁ : Int) → k ≤ (sel.length : Int) + (fuel₂ : Int) →
    mmrLoop cands lam cap k fuel₁ sel used = mmrLoop cands lam cap k fuel₂ sel used := by
  intro fuel₁
  induction fuel₁ with
  | zero =>
    intro fuel₂ sel used h₁ h₂
    cases fuel₂ with
    | zero => rfl
    | succ f₂ =>
      have hnc : ¬((sel.length : Int) < k ∧ sel.length < cands.length) := by
        intro h
        push_cast at h₁
        omega
      rw [mmrLoop_zero, mmrLoop_succ_stop cands lam cap k f₂ sel used hnc]
  | succ f ih =>
    intro fuel₂ sel used h₁ h₂
    by_cases hc : (sel.length : Int) < k ∧ sel.length < cands.length
    · obtain ⟨f₂', rfl⟩ : ∃ f₂', fuel₂ = f₂' + 1 := by
        cases fuel₂ with
        | zero =>
          exfalso
          push_cast at h₂
          omega
        | succ f₂' => exact ⟨f₂', rfl⟩
      cases hs : (scanBest cands lam cap sel used).1 with
      | none =>
        rw [mmrLoop_succ_none cands lam cap k f sel used hc hs,
          mmrLoop_succ_none cands lam cap k f₂' sel used hc hs]
      | some i =>
        rw [mmrLoop_succ_some cands lam cap k f sel used i hc hs,
          mmrLoop_succ_some cands lam cap k f₂' sel used i hc hs]
        have hlen : (sel ++ [i]).length = sel.length + 1 := by simp
        apply ih
        · rw [hlen]; push_cast; push_cast at h₁; omega
        · rw [hlen]; push_cast; push_cast at h₂; omega
    · cases fuel₂ with
      | zero => rw [mmrLoop_zero, mmrLoop_succ_stop cands lam cap k f sel used hc]
      | succ f₂' =>
        rw [mmrLoop_succ_stop cands lam cap k f sel used hc,
          mmrLoop_succ_stop cands lam cap k f₂' sel used hc]

/-- Length bound of the loop: the result never exceeds
`max (current length) (min k (pool size))`. -/
lemma mmrLoop_len (cands : List Chunk) (lam : ℚ) (cap : Option Int) (k : Int) :
    ∀ (fuel : Nat) (sel : List Nat) (used : Nat → Nat),
    ((mmrLoop cands lam cap k fuel sel used).length : Int) ≤
      max (sel.length : Int) (min k (cands.length : Int)) := by
  intro fuel
  induction fuel with
  | zero => intro sel used; rw [mmrLoop_zero]; simp
  | succ f ih =>
    intro sel used
    by_cases hc : (sel.length : Int) < k ∧ sel.length < cands.length
    · cases hs : (scanBest cands lam cap sel used).1 with
      | none =>
        rw [mmrLoop_succ_none cands lam cap k f sel used hc hs]
        simp
      | some i =>
        rw [mmrLoop_succ_some cands lam cap k f sel used i hc hs]
        have := ih (sel ++ [i]) (fun it => if it = itemAt cands i then used it + 1 else used it)
        have hlen : (sel ++ [i]).length = sel.length + 1 := by simp
        rw [hlen] at this
        obtain ⟨hck, hcn⟩ := hc
        push_cast at this ⊢
        omega
    · rw [mmrLoop_succ_stop cands lam cap k f sel used hc]
      simp

/-- Monotonicity of the loop in `k`: with adequate fuel on both sides, the
run with the larger `k` extends the run with the smaller `k`. -/
lemma mmrLoop_mono (cands : List Chunk) (lam : ℚ) (cap : Option Int) {k k' : Int}
    (hk : k ≤ k') : ∀ (fuel fuel' : Nat) (sel : List Nat) (used : Nat → Nat),
    k ≤ (sel.length : Int) + (fuel : Int) → k' ≤ (sel.length : Int) + (fuel' : Int) →
    ∃ t, mmrLoop cands lam cap k' fuel' sel used = mmrLoop cands lam cap k fuel sel used ++ t := by
  intro fuel
  induction fuel with
  | zero =>
    intro fuel' sel used h₁ h₂
    rw [mmrLoop_zero]
    exact mmrLoop_extends cands lam cap k' fuel' sel used
  | succ f ih =>
    intro fuel' sel used h₁ h₂
    by_cases hc : (sel.length : Int) < k ∧ sel.length < cands.length
    · have hc' : (sel.length : Int) < k' ∧ sel.length < cands.length := ⟨by omega, hc.2⟩
      obtain ⟨f₂', rfl⟩ : ∃ f₂', fuel' = f₂' + 1 := by
        cases fuel' with
        | zero =>
          exfalso
          push_cast at h₂
          omega
        | succ f₂' => exact ⟨f₂', rfl⟩
      cases hs : (scanBest cands lam cap sel used).1 with
      | none =>
        rw [mmrLoop_succ_none cands lam cap k f sel used hc hs,
          mmrLoop_succ_none cands lam cap k' f₂' sel used hc' hs]
        exact ⟨[], by simp⟩
      | some i =>
        rw [mmrLoop_succ_some cands lam cap k f sel used i hc hs,
          mmrLoop_succ_some cands lam cap k' f₂' sel used i hc' hs]
        have hlen : (sel ++ [i]).length = sel.length + 1 := by simp
        apply ih
        · rw [hlen]; push_cast; push_cast at h₁; omega
        · rw [hlen]; push_cast; push_cast at h₂; omega
    · rw [mmrLoop_succ_stop cands lam cap k f sel used hc]
      exact mmrLoop_extends cands lam cap k' fuel' sel used

/-- Number of already-selected indices whose candidate belongs to group `g`:
the quantity the Python dict `used_per_item` tracks. -/
def countItem (cands : List Chunk) (sel : List Nat) (g : Nat) : Nat :=
  sel.countP (fun j => itemAt cands j == g)

lemma countItem_append_single (cands : List Chunk) (sel : List Nat) (i : Nat) (g : Nat) :
    countItem cands (sel ++ [i]) g =
      countItem cands sel g + (if itemAt cands i = g then 1 else 0) := by
  by_cases h : itemAt cands i = g <;>
    simp [countItem, List.countP_append, List.countP_cons, h]

lemma capSkip_false_lt {c : Int} {cnt : Nat} (hc : c ≠ 0)
    (h : capSkip (some c) cnt = false) : (cnt : Int) < c := by
  simp only [capSkip] at h
  rw [if_neg hc] at h
  simp only [decide_eq_false_iff_not, not_le] at h
  exact h

/-- Cap preservation: if the carried `used` counters agree with the actual
per-group counts of the selection and respect the cap `c ≥ 1`, then the whole
loop result respects the cap. -/
lemma mmrLoop_cap (cands : List Chunk) (lam : ℚ) (k : Int) {c : Int} (hc : 1 ≤ c) :
    ∀ (fuel : Nat) (sel : List Nat) (used : Nat → Nat),
    (∀ g, used g = countItem cands sel g) →
    (∀ g, (used g : Int) ≤ c) →
    ∀ g, ((countItem cands (mmrLoop cands lam (some c) k fuel sel used) g : Nat) : Int) ≤ c := by
  intro fuel
  induction fuel with
  | zero =>
    intro sel used hsync hbound g
    rw [mmrLoop_zero]
    have := hbound g
    rw [hsync g] at this
    exact this
  | succ f ih =>
    intro sel used hsync hbound g
    by_cases hcond : (sel.length : Int) < k ∧ sel.length < cands.length
    · cases hs : (scanBest cands lam (some c) sel used).1 with
      | none =>
        rw [mmrLoop_succ_none cands lam (some c) k f sel used hcond hs]
        have := hbound g
        rw [hsync g] at this
        exact this
      | some i =>
        rw [mmrLoop_succ_some cands lam (some c) k f sel used i hcond hs]
        have hspec := (scanAcc_spec cands lam (some c) sel used cands.length).2 i
          (by rw [← scanBest_eq_scanAcc]; exact hs)
        obtain ⟨_, _, hcap, _, _, _, _⟩ := hspec
        have hlt : ((used (itemAt cands i) : Nat) : Int) < c :=
          capSkip_false_lt (by omega) hcap
        apply ih
        · intro g'
          show (if g' = itemAt cands i then used g' + 1 else used g') =
            countItem cands (sel ++ [i]) g'
          rw [countItem_append_single]
          by_cases hg : g' = itemAt cands i
          · rw [if_pos hg, if_pos hg.symm, hsync g']
          · rw [if_neg hg, if_neg (fun h => hg h.symm), hsync g']
            omega
        · intro g'
          show (((if g' = itemAt cands i then used g' + 1 else used g') : Nat) : Int) ≤ c
          by_cases hg : g' = itemAt cands i
          · rw [if_pos hg, hg]
            push_cast
            push_cast at hlt
            omega
          · rw [if_neg hg]
            exact hbound g'
    · rw [mmrLoop_succ_stop cands lam (some c) k f sel used hcond]
      have := hbound g
      rw [hsync g] at this
      exact this
/-- Both files' inner scans are definitionally the same function. -/
lemma scan_agree : MainPy.scanBest = RagQuery.scanBest := rfl

/-- Both files' seed picks are definitionally the same function. -/
lemma argmax_agree : MainPy.argmaxSim = RagQuery.argmaxSim := rfl

/-- Both files' selection loops compute the same function. -/
lemma mmrLoop_agree (cands : List Chunk) (lam : ℚ) (cap : Option Int) (k : Int) :
    ∀ (fuel : Nat) (sel : List Nat) (used : Nat → Nat),
    MainPy.mmrLoop cands lam cap k fuel sel used = mmrLoop cands lam cap k fuel sel used := by
  intro fuel
  induction fuel with
  | zero => intro sel used; rfl
  | succ f ih =>
    intro sel used
    simp only [MainPy.mmrLoop, mmrLoop]
    rw [scan_agree]
    by_cases hc : (sel.length : Int) < k ∧ sel.length < cands.length
    · rw [if_pos hc, if_pos hc]
      cases hs : (scanBest cands lam cap sel used).1 with
      | none => simp only [hs]
      | some i =>
        simp only [hs]
        exact ih _ _
    · rw [if_neg hc, if_neg hc]

/-- Empty pool: the selection is empty. -/
lemma mmr_select_empty (k : Int) (lam : ℚ) (cap : Option Int) :
    mmr_select [] k lam cap = [] := rfl

/-- Nonpositive `k` with a nonempty pool: the seed pick alone is returned
(the while loop body never runs, but the seed was already appended). -/
lemma mmr_select_k_nonpos (cands : List Chunk) (k : Int) (lam : ℚ) (cap : Option Int)
    (hk : k ≤ 0) (hne : cands ≠ []) :
    mmr_select cands k lam cap = [argmaxSim cands] := by
  unfold mmr_select
  rw [if_neg (by simp [hne])]
  have ht : k.toNat = 0 := by omega
  rw [ht, mmrLoop_zero]

/-- Length bound for `k ≥ 1`: at most `min k (pool size)` indices are selected. -/
lemma mmr_select_len (cands : List Chunk) (k : Int) (lam : ℚ) (cap : Option Int)
    (hk : 1 ≤ k) :
    ((mmr_select cands k lam cap).length : Int) ≤ min k (cands.length : Int) := by
  unfold mmr_select
  by_cases he : cands.isEmpty
  · rw [if_pos he]
    have : cands = [] := List.isEmpty_iff.mp he
    subst this
    simp
    omega
  · rw [if_neg he]
    have h0 : 0 < cands.length := by
      cases cands with
      | nil => simp at he
      | cons a l => simp
    have hb := mmrLoop_len cands lam cap k k.toNat [argmaxSim cands]
      (fun it => if it = itemAt cands (argmaxSim cands) then 1 else 0)
    simp only [List.length_singleton] at hb
    omega

/-- Prefix monotonicity in `k` at the `mmr_select` level. -/
lemma mmr_select_mono (cands : List Chunk) (lam : ℚ) (cap : Option Int) {k k' : Int}
    (hk : k ≤ k') :
    ∃ t, mmr_select cands k' lam cap = mmr_select cands k lam cap ++ t := by
  unfold mmr_select
  by_cases he : cands.isEmpty
  · rw [if_pos he, if_pos he]
    exact ⟨[], rfl⟩
  · rw [if_neg he, if_neg he]
    apply mmrLoop_mono cands lam cap hk
    · simp
      omega
    · simp
      omega

/-- The per-item cap holds for the whole selection when `c ≥ 1`. -/
lemma mmr_select_cap (cands : List Chunk) (k : Int) (lam : ℚ) {c : Int} (hc : 1 ≤ c)
    (g : Nat) :
    ((countItem cands (mmr_select cands k lam (some c)) g : Nat) : Int) ≤ c := by
  unfold mmr_select
  by_cases he : cands.isEmpty
  · rw [if_pos he]
    simp [countItem]
    omega
  · rw [if_neg he]
    apply mmrLoop_cap cands lam k hc
    · intro g'
      show (if g' = itemAt cands (argmaxSim cands) then 1 else 0) =
        countItem cands [argmaxSim cands] g'
      by_cases hg : g' = itemAt cands (argmaxSim cands)
      · rw [if_pos hg]
        simp [countItem, List.countP_cons, hg]
      · rw [if_neg hg]
        have hb : (itemAt cands (argmaxSim cands) == g') = false := by
          simp
          exact fun h => hg h.symm
        simp [countItem, List.countP_cons, hb]
    · intro g'
      show (((if g' = itemAt cands (argmaxSim cands) then 1 else 0) : Nat) : Int) ≤ c
      by_cases hg : g' = itemAt cands (argmaxSim cands)
      · rw [if_pos hg]
        omega
      · rw [if_neg hg]
        omega

/-- A cap of `0` behaves exactly like no cap at all (Python falsiness). -/
lemma capSkip_zero : capSkip (some 0) = capSkip none := by
  funext cnt
  simp [capSkip]

lemma scanStep_capCongr (cands : List Chunk) (lam : ℚ) {cap₁ cap₂ : Option Int}
    (h : capSkip cap₁ = capSkip cap₂) (sel : List Nat) (used : Nat → Nat) :
    scanStep cands lam cap₁ sel used = scanStep cands lam cap₂ sel used := by
  funext acc i
  simp only [scanStep, h]

lemma scanBest_capCongr (cands : List Chunk) (lam : ℚ) {cap₁ cap₂ : Option Int}
    (h : capSkip cap₁ = capSkip cap₂) (sel : List Nat) (used : Nat → Nat) :
    scanBest cands lam cap₁ sel used = scanBest cands lam cap₂ sel used := by
  unfold scanBest
  rw [scanStep_capCongr cands lam h sel used]

lemma mmrLoop_capCongr (cands : List Chunk) (lam : ℚ) {cap₁ cap₂ : Option Int}
    (h : capSkip cap₁ = capSkip cap₂) (k : Int) :
    ∀ (fuel : Nat) (sel : List Nat) (used : Nat → Nat),
    mmrLoop cands lam cap₁ k fuel sel used = mmrLoop cands lam cap₂ k fuel sel used := by
  intro fuel
  induction fuel with
  | zero => intro sel used; rfl
  | succ f ih =>
    intro sel used
    simp only [mmrLoop]
    rw [scanBest_capCongr cands lam h sel used]
    by_cases hc : (sel.length : Int) < k ∧ sel.length < cands.length
    · rw [if_pos hc, if_pos hc]
      cases hs : (scanBest cands lam cap₂ sel used).1 with
      | none => simp only [hs]
      | some i =>
        simp only [hs]
        exact ih _ _
    · rw [if_neg hc, if_neg hc]

/-- At the selector level: cap `0` and cap `None` produce identical selections. -/
lemma mmr_select_cap_zero (cands : List Chunk) (k : Int) (lam : ℚ) :
    mmr_select cands k lam (some 0) = mmr_select cands k lam none := by
  unfold mmr_select
  by_cases he : cands.isEmpty
  · rw [if_pos he, if_pos he]
  · rw [if_neg he, if_neg he]
    exact mmrLoop_capCongr cands lam capSkip_zero k _ _ _

end RagQuery

namespace SpecModel

/-- Proof infrastructure: the greedy pick scan after processing `0 .. m-1`. -/
def pickAcc (cands : List Chunk) (cap : Option Int) (selected : List Nat)
    (used : Nat → Nat) (m : Nat) : Option (Nat × ℚ) :=
  (List.range m).foldl (pickStep cands cap selected used) none

lemma pickTop_eq_pickAcc (cands : List Chunk) (cap : Option Int) (selected : List Nat)
    (used : Nat → Nat) :
    pickTop cands cap selected used = pickAcc cands cap selected used cands.length := rfl

lemma pickAcc_succ (cands : List Chunk) (cap : Option Int) (selected : List Nat)
    (used : Nat → Nat) (m : Nat) :
    pickAcc cands cap selected used (m + 1) =
      pickStep cands cap selected used (pickAcc cands cap selected used m) m := by
  simp [pickAcc, List.range_succ]

lemma topKLoop_zero (cands : List Chunk) (cap : Option Int) (k : Int)
    (sel : List Nat) (used : Nat → Nat) : topKLoop cands cap k 0 sel used = sel := rfl

lemma topKLoop_succ_stop (cands : List Chunk) (cap : Option Int) (k : Int)
    (f : Nat) (sel : List Nat) (used : Nat → Nat) (hc : ¬((sel.length : Int) < k)) :
    topKLoop cands cap k (f + 1) sel used = sel := by
  simp only [topKLoop]
  rw [if_neg hc]

lemma topKLoop_succ_none (cands : List Chunk) (cap : Option Int) (k : Int)
    (f : Nat) (sel : List Nat) (used : Nat → Nat) (hc : (sel.length : Int) < k)
    (hp : pickTop cands cap sel used = none) :
    topKLoop cands cap k (f + 1) sel used = sel := by
  simp only [topKLoop]
  rw [if_pos hc]
  simp only [hp]

lemma topKLoop_succ_some (cands : List Chunk) (cap : Option Int) (k : Int)
    (f : Nat) (sel : List Nat) (used : Nat → Nat) (i : Nat) (s : ℚ)
    (hc : (sel.length : Int) < k)
    (hp : pickTop cands cap sel used = some (i, s)) :
    topKLoop cands cap k (f + 1) sel used =
      topKLoop cands cap k f (sel ++ [i])
        (fun it => if it = itemAt cands i then used it + 1 else used it) := by
  simp only [topKLoop]
  rw [if_pos hc]
  simp only [hp]

/-- When every index below `m` is already selected, the greedy pick scan
stays empty. -/
lemma pickAcc_all_selected (cands : List Chunk) (cap : Option Int) (sel : List Nat)
    (used : Nat → Nat) : ∀ m : Nat, (∀ j, j < m → j ∈ sel) →
    pickAcc cands cap sel used m = none := by
  intro m
  induction m with
  | zero => intro _; rfl
  | succ m ih =>
    intro hall
    rw [pickAcc_succ, ih (fun j hj => hall j (by omega))]
    simp only [pickStep]
    rw [if_pos (hall m (by omega))]

end SpecModel

/-- The common seed scan: first index of maximal similarity among `0 .. m-1`. -/
def argAcc (cands : List Chunk) (m : Nat) : Nat :=
  (List.range m).foldl (fun best i => if simAt cands i > simAt cands best then i else best) 0

lemma argmaxSim_eq_argAcc (cands : List Chunk) :
    RagQuery.argmaxSim cands = argAcc cands cands.length := rfl

lemma argAcc_succ (cands : List Chunk) (m : Nat) :
    argAcc cands (m + 1) =
      if simAt cands m > simAt cands (argAcc cands m) then m else argAcc cands m := by
  simp [argAcc, List.range_succ]

lemma argAcc_lt (cands : List Chunk) : ∀ m : Nat, argAcc cands m < max m 1 := by
  intro m
  induction m with
  | zero => simp [argAcc]
  | succ m ih =>
    rw [argAcc_succ]
    by_cases h : simAt cands m > simAt cands (argAcc cands m)
    · rw [if_pos h]
      omega
    · rw [if_neg h]
      omega

/-- With `lam = 1` the MMR score is just the similarity. -/
lemma mmrScore_one (cands : List Chunk) (sel : List Nat) (i : Nat) :
    RagQuery.mmrScore cands 1 sel i = simAt cands i := by
  simp [RagQuery.mmrScore]

/-- With `lam = 1` (and all similarities above the `-1e9` floor) the MMR scan
and the spec's greedy top-similarity pick agree step by step. -/
lemma scan_pick_rel (cands : List Chunk) (cap : Option Int) (sel : List Nat)
    (used : Nat → Nat) (hs : ∀ i, -1000000000 < simAt cands i) : ∀ m : Nat,
    ((RagQuery.scanAcc cands 1 cap sel used m).1 = none ∧
      (RagQuery.scanAcc cands 1 cap sel used m).2 = -1000000000 ∧
      SpecModel.pickAcc cands cap sel used m = none) ∨
    (∃ i, (RagQuery.scanAcc cands 1 cap sel used m).1 = some i ∧
      SpecModel.pickAcc cands cap sel used m =
        some (i, (RagQuery.scanAcc cands 1 cap sel used m).2)) := by
  intro m
  induction m with
  | zero => exact Or.inl ⟨rfl, rfl, rfl⟩
  | succ m ih =>
    rw [RagQuery.scanAcc_succ, SpecModel.pickAcc_succ]
    by_cases h1 : m ∈ sel
    · have e1 : RagQuery.scanStep cands 1 cap sel used
          (RagQuery.scanAcc cands 1 cap sel used m) m =
          RagQuery.scanAcc cands 1 cap sel used m := by
        simp only [RagQuery.scanStep]
        rw [if_pos h1]
      have e2 : SpecModel.pickStep cands cap sel used
          (SpecModel.pickAcc cands cap sel used m) m =
          SpecModel.pickAcc cands cap sel used m := by
        simp only [SpecModel.pickStep]
        rw [if_pos h1]
      rw [e1, e2]
      exact ih
    · by_cases h2 : RagQuery.capSkip cap (used (itemAt cands m)) = true
      · have e1 : RagQuery.scanStep cands 1 cap sel used
            (RagQuery.scanAcc cands 1 cap sel used m) m =
            RagQuery.scanAcc cands 1 cap sel used m := by
          simp only [RagQuery.scanStep]
          rw [if_neg h1, if_pos h2]
        have e2 : SpecModel.pickStep cands cap sel used
            (SpecModel.pickAcc cands cap sel used m) m =
            SpecModel.pickAcc cands cap sel used m := by
          simp only [SpecModel.pickStep]
          rw [if_neg h1, if_pos h2]
        rw [e1, e2]
        exact ih
      · rcases ih with ⟨ha1, ha2, ha3⟩ | ⟨b, hb1, hb2⟩
        · have e1 : RagQuery.scanStep cands 1 cap sel used
              (RagQuery.scanAcc cands 1 cap sel used m) m =
              (some m, RagQuery.mmrScore cands 1 sel m) := by
            simp only [RagQuery.scanStep]
            rw [if_neg h1, if_neg h2,
              if_pos (by rw [mmrScore_one, ha2]; exact hs m)]
          have e2 : SpecModel.pickStep cands cap sel used
              (SpecModel.pickAcc cands cap sel used m) m =
              some (m, simAt cands m) := by
            simp only [SpecModel.pickStep]
            rw [if_neg h1, if_neg h2, ha3]
          rw [e1, e2]
          right
          exact ⟨m, rfl, by rw [mmrScore_one]⟩
        · by_cases h3 : simAt cands m > (RagQuery.scanAcc cands 1 cap sel used m).2
          · have e1 : RagQuery.scanStep cands 1 cap sel used
                (RagQuery.scanAcc cands 1 cap sel used m) m =
                (some m, RagQuery.mmrScore cands 1 sel m) := by
              simp only [RagQuery.scanStep]
              rw [if_neg h1, if_neg h2, if_pos (by rw [mmrScore_one]; exact h3)]
            have e2 : SpecModel.pickStep cands cap sel used
                (SpecModel.pickAcc cands cap sel used m) m =
                some (m, simAt cands m) := by
              simp only [SpecModel.pickStep]
              rw [if_neg h1, if_neg h2, hb2]
              simp only [if_pos h3]
            rw [e1, e2]
            right
            exact ⟨m, rfl, by rw [mmrScore_one]⟩
          · have e1 : RagQuery.scanStep cands 1 cap sel used
                (RagQuery.scanAcc cands 1 cap sel used m) m =
                RagQuery.scanAcc cands 1 cap sel used m := by
              simp only [RagQuery.scanStep]
              rw [if_neg h1, if_neg h2, if_neg (by rw [mmrScore_one]; exact h3)]
            have e2 : SpecModel.pickStep cands cap sel used
                (SpecModel.pickAcc cands cap sel used m) m =
                some (b, (RagQuery.scanAcc cands 1 cap sel used m).2) := by
              simp only [SpecModel.pickStep]
              rw [if_neg h1, if_neg h2, hb2]
              simp only [if_neg h3]
            rw [e1, e2]
            right
            exact ⟨b, hb1, rfl⟩

/-- Pigeonhole: a duplicate-free list of indices below `n` of length at least
`n` contains every index below `n`. -/
lemma all_lt_mem_of_nodup (sel : List Nat) (n : Nat) (hnd : sel.Nodup)
    (hbd : ∀ j ∈ sel, j < n) (hlen : n ≤ sel.length) : ∀ i, i < n → i ∈ sel := by
  intro i hi
  by_contra hmem
  have hsub : sel.toFinset ⊆ (Finset.range n).erase i := by
    intro x hx
    rw [List.mem_toFinset] at hx
    refine Finset.mem_erase.mpr ⟨?_, Finset.mem_range.mpr (hbd x hx)⟩
    rintro rfl
    exact hmem hx
  have hcard := Finset.card_le_card hsub
  rw [List.toFinset_card_of_nodup hnd,
    Finset.card_erase_of_mem (Finset.mem_range.mpr hi), Finset.card_range] at hcard
  omega

/-- With `lam = 1` the MMR loop and the spec's greedy top-K loop coincide,
provided the running selection is duplicate-free and within bounds. -/
lemma mmrLoop_eq_topKLoop (cands : List Chunk) (cap : Option Int) (k : Int)
    (hs : ∀ i, -1000000000 < simAt cands i) :
    ∀ (fuel : Nat) (sel : List Nat) (used : Nat → Nat), sel.Nodup →
    (∀ j ∈ sel, j < cands.length) →
    RagQuery.mmrLoop cands 1 cap k fuel sel used =
      SpecModel.topKLoop cands cap k fuel sel used := by
  intro fuel
  induction fuel with
  | zero => intro sel used _ _; rfl
  | succ f ih =>
    intro sel used hnd hbd
    by_cases hk : (sel.length : Int) < k
    · by_cases hn : sel.length < cands.length
      · have hc : (sel.length : Int) < k ∧ sel.length < cands.length := ⟨hk, hn⟩
        rcases scan_pick_rel cands cap sel used hs cands.length with
          ⟨ha1, _, ha3⟩ | ⟨i, hb1, hb2⟩
        · rw [RagQuery.mmrLoop_succ_none cands 1 cap k f sel used hc
            (by rw [RagQuery.scanBest_eq_scanAcc]; exact ha1),
            SpecModel.topKLoop_succ_none cands cap k f sel used hk
            (by rw [SpecModel.pickTop_eq_pickAcc]; exact ha3)]
        · have hscan : (RagQuery.scanBest cands 1 cap sel used).1 = some i := by
            rw [RagQuery.scanBest_eq_scanAcc]
            exact hb1
          have hspec := (RagQuery.scanAcc_spec cands 1 cap sel used cands.length).2 i hb1
          obtain ⟨hilt, hins, _, _, _, _, _⟩ := hspec
          rw [RagQuery.mmrLoop_succ_some cands 1 cap k f sel used i hc hscan,
            SpecModel.topKLoop_succ_some cands cap k f sel used i _ hk
            (by rw [SpecModel.pickTop_eq_pickAcc]; exact hb2)]
          apply ih
          · simp [List.nodup_append, hnd, hins]
          · intro j hj
            rcases List.mem_append.mp hj with hj | hj
            · exact hbd j hj
            · rw [List.mem_singleton] at hj
              subst hj
              exact hilt
      · rw [RagQuery.mmrLoop_succ_stop cands 1 cap k f sel used (fun h => hn h.2)]
        have hall : ∀ j, j < cands.length → j ∈ sel :=
          all_lt_mem_of_nodup sel cands.length hnd hbd (by omega)
        rw [SpecModel.topKLoop_succ_none cands cap k f sel used hk
          (by
            rw [SpecModel.pickTop_eq_pickAcc]
            exact SpecModel.pickAcc_all_selected cands cap sel used cands.length hall)]
    · rw [RagQuery.mmrLoop_succ_stop cands 1 cap k f sel used (fun h => hk h.1),
        SpecModel.topKLoop_succ_stop cands cap k f sel used hk]

/-- With an all-zero usage counter and a valid cap, the first greedy pick over
`0 .. m` is exactly the first index of maximal similarity. -/
lemma pickAcc_empty (cands : List Chunk) (cap : Option Int)
    (hcap0 : RagQuery.capSkip cap 0 = false) : ∀ m : Nat,
    SpecModel.pickAcc cands cap [] (fun _ => 0) (m + 1) =
      some (argAcc cands (m + 1), simAt cands (argAcc cands (m + 1))) := by
  intro m
  induction m with
  | zero =>
    rw [SpecModel.pickAcc_succ]
    have h0 : SpecModel.pickAcc cands cap [] (fun _ => 0) 0 = none := rfl
    rw [h0]
    simp only [SpecModel.pickStep]
    rw [if_neg (List.not_mem_nil 0), if_neg (by rw [hcap0]; simp)]
    rw [argAcc_succ]
    have h00 : argAcc cands 0 = 0 := rfl
    rw [h00, if_neg (lt_irrefl _)]
  | succ m ih =>
    rw [SpecModel.pickAcc_succ, ih]
    simp only [SpecModel.pickStep]
    rw [if_neg (List.not_mem_nil (m + 1)), if_neg (by rw [hcap0]; simp)]
    rw [argAcc_succ cands (m + 1)]
    by_cases h : simAt cands (m + 1) > simAt cands (argAcc cands (m + 1))
    · simp only [if_pos h]
    · simp only [if_neg h]

/-- Every position's similarity clears the `-1e9` scan floor when every
candidate's similarity is at least `-1` (out-of-range positions read the
default chunk, whose similarity is `0`). -/
lemma simAt_floor (cands : List Chunk) (hsim : ∀ c ∈ cands, -1 ≤ c.sim) :
    ∀ i, -1000000000 < simAt cands i := by
  intro i
  show -1000000000 < (cands.getD i default).sim
  by_cases hlt : i < cands.length
  · rw [List.getD_eq_getElem?_getD, List.getElem?_eq_getElem hlt]
    have := hsim _ (List.getElem_mem hlt)
    simp only [Option.getD_some]
    linarith
  · rw [List.getD_eq_getElem?_getD, List.getElem?_eq_none (by omega)]
    show -1000000000 < (default : Chunk).sim
    rfl

/-- With `lam = 1`, a valid cap and bounded similarities, `mmr_select` is the
spec's greedy top-K-by-similarity under the per-group cap. -/
lemma mmr_select_eq_topK (cands : List Chunk) (k : Int) (cap : Option Int)
    (hk : 1 ≤ k) (hsim : ∀ c ∈ cands, -1 ≤ c.sim)
    (hcap0 : RagQuery.capSkip cap 0 = false) :
    RagQuery.mmr_select cands k 1 cap = SpecModel.topK_by_sim cands k cap := by
  have hs := simAt_floor cands hsim
  obtain ⟨f, hf⟩ : ∃ f, k.toNat = f + 1 := ⟨k.toNat - 1, by omega⟩
  by_cases he : cands.isEmpty
  · have hcn : cands = [] := List.isEmpty_iff.mp he
    subst hcn
    rw [RagQuery.mmr_select_empty]
    unfold SpecModel.topK_by_sim
    rw [hf]
    rw [SpecModel.topKLoop_succ_none [] cap k f [] (fun _ => 0) (by simp; omega) rfl]
  · unfold RagQuery.mmr_select SpecModel.topK_by_sim
    rw [if_neg he, hf]
    have hn1 : 1 ≤ cands.length := by
      cases cands with
      | nil => simp at he
      | cons a l => simp
    obtain ⟨n', hn'⟩ : ∃ n', cands.length = n' + 1 := ⟨cands.length - 1, by omega⟩
    have hpick : SpecModel.pickTop cands cap [] (fun _ => 0) =
        some (RagQuery.argmaxSim cands, simAt cands (RagQuery.argmaxSim cands)) := by
      rw [SpecModel.pickTop_eq_pickAcc, hn', pickAcc_empty cands cap hcap0 n']
      rw [argmaxSim_eq_argAcc, hn']
    rw [SpecModel.topKLoop_succ_some cands cap k f [] (fun _ => 0)
      (RagQuery.argmaxSim cands) _ (by simp; omega) hpick]
    have hbump : (fun it => if it = itemAt cands (RagQuery.argmaxSim cands)
          then (fun _ => (0 : Nat)) it + 1 else (fun _ => (0 : Nat)) it) =
        (fun it => if it = itemAt cands (RagQuery.argmaxSim cands) then 1 else 0) := rfl
    rw [show ([] : List Nat) ++ [RagQuery.argmaxSim cands] = [RagQuery.argmaxSim cands]
      from rfl, hbump]
    rw [RagQuery.mmrLoop_fuel cands 1 cap k (f + 1) f [RagQuery.argmaxSim cands] _
      (by simp; omega) (by simp; omega)]
    apply mmrLoop_eq_topKLoop cands cap k hs f
    · exact List.nodup_singleton _
    · intro j hj
      rw [List.mem_singleton] at hj
      subst hj
      have := argAcc_lt cands cands.length
      rw [argmaxSim_eq_argAcc]
      omega

/-- C1 counterexample: the claim says `k ≤ 0` returns the empty selection and
`len(selection) ≤ min(k, |candidates|)` for every valid input, but with a
nonempty pool and `k = 0` (or `k = -1`) `mmr_select` still returns the seed
pick, a selection of length 1 > min(k, 1). -/
theorem C1_counterexample :
    RagQuery.mmr_select
      [{ item_id := 1, kind := "info", name := "a", chunk_ix := 0, chunk_text := "t",
         dist := 0, sim := mkRat 9 10 }] 0 (mkRat 1 2) none = [0] ∧
    RagQuery.mmr_select
      [{ item_id := 1, kind := "info", name := "a", chunk_ix := 0, chunk_text := "t",
         dist := 0, sim := mkRat 9 10 }] (-1) (mkRat 1 2) none = [0] ∧
    ¬(((RagQuery.mmr_select
      [{ item_id := 1, kind := "info", name := "a", chunk_ix := 0, chunk_text := "t",
         dist := 0, sim := mkRat 9 10 }] 0 (mkRat 1 2) none).length : Int) ≤
        min 0 1) := by
  refine ⟨by decide, by decide, ?_⟩
  decide

/-- C1 (amended): an empty candidate list yields the empty selection and for
`k ≥ 1` the selection length is at most `min(k, |candidates|)`; however, for
`k ≤ 0` with a nonempty candidate list the selector returns the single seed
pick (the highest-similarity candidate), not the empty selection. -/
theorem C1_theorem :
    ∀ (cands : List Chunk) (k : Int) (lam : ℚ) (cap : Option Int),
    (cands = [] → RagQuery.mmr_select cands k lam cap = []) ∧
    (1 ≤ k → ((RagQuery.mmr_select cands k lam cap).length : Int) ≤
      min k (cands.length : Int)) ∧
    (k ≤ 0 → cands ≠ [] →
      RagQuery.mmr_select cands k lam cap = [RagQuery.argmaxSim cands]) := by
  intro cands k lam cap
  refine ⟨?_, ?_, ?_⟩
  · intro h
    subst h
    exact RagQuery.mmr_select_empty k lam cap
  · intro hk
    exact RagQuery.mmr_select_len cands k lam cap hk
  · intro hk hne
    exact RagQuery.mmr_select_k_nonpos cands k lam cap hk hne

/-- C1 witness: the amended length bound at a concrete two-candidate pool. -/
theorem C1_witness :
    ((RagQuery.mmr_select
      [{ item_id := 1, kind := "info", name := "a", chunk_ix := 0, chunk_text := "t",
         dist := 0, sim := mkRat 9 10 },
       { item_id := 2, kind := "info", name := "b", chunk_ix := 0, chunk_text := "u",
         dist := 0, sim := mkRat 8 10 }] 1 (mkRat 1 2) none).length : Int) ≤
      min 1 2 :=
  (C1_theorem
    [{ item_id := 1, kind := "info", name := "a", chunk_ix := 0, chunk_text := "t",
       dist := 0, sim := mkRat 9 10 },
     { item_id := 2, kind := "info", name := "b", chunk_ix := 0, chunk_text := "u",
       dist := 0, sim := mkRat 8 10 }] 1 (mkRat 1 2) none).2.1 (by decide)

/-- C2: with a per-item cap `c ≥ 1` no group ever exceeds `c` selected
chunks, a cap of `0` behaves exactly like an unset cap, and an unset cap
never skips any candidate. -/
theorem C2_theorem :
    (∀ (cands : List Chunk) (k : Int) (lam : ℚ) (c : Int), 1 ≤ c → ∀ g : Nat,
      ((RagQuery.countItem cands (RagQuery.mmr_select cands k lam (some c)) g : Nat) : Int) ≤ c) ∧
    (∀ (cands : List Chunk) (k : Int) (lam : ℚ),
      RagQuery.mmr_select cands k lam (some 0) = RagQuery.mmr_select cands k lam none) ∧
    (∀ cnt : Nat, RagQuery.capSkip none cnt = false) := by
  refine ⟨?_, ?_, ?_⟩
  · intro cands k lam c hc g
    exact RagQuery.mmr_select_cap cands k lam hc g
  · intro cands k lam
    exact RagQuery.mmr_select_cap_zero cands k lam
  · intro cnt
    rfl

/-- C2 witness: the cap bound at a concrete pool with cap 1, plus the
cap-0-equals-unset equation at the same pool. -/
theorem C2_witness :
    ((RagQuery.countItem
      [{ item_id := 1, kind := "info", name := "a", chunk_ix := 0, chunk_text := "t",
         dist := 0, sim := mkRat 9 10 },
       { item_id := 1, kind := "info", name := "a", chunk_ix := 1, chunk_text := "u",
         dist := 0, sim := mkRat 85 100 },
       { item_id := 2, kind := "info", name := "b", chunk_ix := 0, chunk_text := "v",
         dist := 0, sim := mkRat 8 10 }]
      (RagQuery.mmr_select
        [{ item_id := 1, kind := "info", name := "a", chunk_ix := 0, chunk_text := "t",
           dist := 0, sim := mkRat 9 10 },
         { item_id := 1, kind := "info", name := "a", chunk_ix := 1, chunk_text := "u",
           dist := 0, sim := mkRat 85 100 },
         { item_id := 2, kind := "info", name := "b", chunk_ix := 0, chunk_text := "v",
           dist := 0, sim := mkRat 8 10 }] 3 (mkRat 1 2) (some 1)) 1 : Nat) : Int) ≤ 1 :=
  C2_theorem.1
    [{ item_id := 1, kind := "info", name := "a", chunk_ix := 0, chunk_text := "t",
       dist := 0, sim := mkRat 9 10 },
     { item_id := 1, kind := "info", name := "a", chunk_ix := 1, chunk_text := "u",
       dist := 0, sim := mkRat 85 100 },
     { item_id := 2, kind := "info", name := "b", chunk_ix := 0, chunk_text := "v",
       dist := 0, sim := mkRat 8 10 }] 3 (mkRat 1 2) 1 (by decide) 1

/-- C3 counterexample: the claim says score ties are broken by higher raw
similarity.  With `lam = 0.5` and similarities `1.0, 0.0, 1.0` - all dyadic,
so every product and difference is computed EXACTLY both here and in IEEE
doubles (`0.5*0.0 - 0.5*0.0 = 0.0 = 0.5*1.0 - 0.5*1.0`) - the seed picks
index 0 (item 1), after which index 1 (item 2, similarity 0.0, no penalty)
and index 2 (item 1 again, similarity 1.0, penalized) tie at score 0.0; the
code picks index 1, the first one scanned, although index 2 has the strictly
higher raw similarity. -/
theorem C3_counterexample :
    RagQuery.mmr_select
      [{ item_id := 1, kind := "info", name := "a", chunk_ix := 0, chunk_text := "t",
         dist := 0, sim := 1 },
       { item_id := 2, kind := "info", name := "b", chunk_ix := 0, chunk_text := "u",
         dist := 1, sim := 0 },
       { item_id := 1, kind := "info", name := "a", chunk_ix := 1, chunk_text := "v",
         dist := 0, sim := 1 }] 2 (mkRat 1 2) none = [0, 1] ∧
    RagQuery.mmrScore
      [{ item_id := 1, kind := "info", name := "a", chunk_ix := 0, chunk_text := "t",
         dist := 0, sim := 1 },
       { item_id := 2, kind := "info", name := "b", chunk_ix := 0, chunk_text := "u",
         dist := 1, sim := 0 },
       { item_id := 1, kind := "info", name := "a", chunk_ix := 1, chunk_text := "v",
         dist := 0, sim := 1 }] (mkRat 1 2) [0] 2 =
      RagQuery.mmrScore
      [{ item_id := 1, kind := "info", name := "a", chunk_ix := 0, chunk_text := "t",
         dist := 0, sim := 1 },
       { item_id := 2, kind := "info", name := "b", chunk_ix := 0, chunk_text := "u",
         dist := 1, sim := 0 },
       { item_id := 1, kind := "info", name := "a", chunk_ix := 1, chunk_text := "v",
         dist := 0, sim := 1 }] (mkRat 1 2) [0] 1 ∧
    simAt
      [{ item_id := 1, kind := "info", name := "a", chunk_ix := 0, chunk_text := "t",
         dist := 0, sim := 1 },
       { item_id := 2, kind := "info", name := "b", chunk_ix := 0, chunk_text := "u",
         dist := 1, sim := 0 },
       { item_id := 1, kind := "info", name := "a", chunk_ix := 1, chunk_text := "v",
         dist := 0, sim := 1 }] 1 <
      simAt
      [{ item_id := 1, kind := "info", name := "a", chunk_ix := 0, chunk_text := "t",
         dist := 0, sim := 1 },
       { item_id := 2, kind := "info", name := "b", chunk_ix := 0, chunk_text := "u",
         dist := 1, sim := 0 },
       { item_id := 1, kind := "info", name := "a", chunk_ix := 1, chunk_text := "v",
         dist := 0, sim := 1 }] 2 := by
  refine ⟨by decide, by decide, by decide⟩

/-- C3 (amended): at every iteration after the seed pick, the selector
chooses the eligible (unselected, under-cap) candidate with the highest MMR
score, and breaks ALL score ties by earliest original position (first scanned
wins); raw similarity is never consulted as a tie-break.  The first conjunct
characterizes the inner scan, the last ties the loop to it. -/
theorem C3_theorem :
    ∀ (cands : List Chunk) (lam : ℚ) (cap : Option Int) (sel : List Nat)
      (used : Nat → Nat) (i : Nat),
    (RagQuery.scanBest cands lam cap sel used).1 = some i →
      ((i < cands.length ∧ i ∉ sel ∧
          RagQuery.capSkip cap (used (itemAt cands i)) = false) ∧
        (∀ j, j < cands.length → j ∉ sel →
          RagQuery.capSkip cap (used (itemAt cands j)) = false →
          RagQuery.mmrScore cands lam sel j ≤ RagQuery.mmrScore cands lam sel i) ∧
        (∀ j, j < cands.length → j ∉ sel →
          RagQuery.capSkip cap (used (itemAt cands j)) = false →
          RagQuery.mmrScore cands lam sel j = RagQuery.mmrScore cands lam sel i → i ≤ j) ∧
        (∀ (k : Int) (f : Nat),
          (sel.length : Int) < k ∧ sel.length < cands.length →
          RagQuery.mmrLoop cands lam cap k (f + 1) sel used =
            RagQuery.mmrLoop cands lam cap k f (sel ++ [i])
              (fun it => if it = itemAt cands i then used it + 1 else used it))) := by
  intro cands lam cap sel used i hscan
  have hspec := (RagQuery.scanAcc_spec cands lam cap sel used cands.length).2 i
    (by rw [← RagQuery.scanBest_eq_scanAcc]; exact hscan)
  obtain ⟨hilt, hins, hicap, _, _, hmax, htie⟩ := hspec
  refine ⟨⟨hilt, hins, hicap⟩, hmax, htie, ?_⟩
  intro k f hc
  exact RagQuery.mmrLoop_succ_some cands lam cap k f sel used i hc hscan

/-- C3 witness: at the counterexample's second iteration, the theorem applied
to the concrete scan state shows the chosen index 1 dominates index 2. -/
theorem C3_witness :
    RagQuery.mmrScore
      [{ item_id := 1, kind := "info", name := "a", chunk_ix := 0, chunk_text := "t",
         dist := 0, sim := 1 },
       { item_id := 2, kind := "info", name := "b", chunk_ix := 0, chunk_text := "u",
         dist := 1, sim := 0 },
       { item_id := 1, kind := "info", name := "a", chunk_ix := 1, chunk_text := "v",
         dist := 0, sim := 1 }] (mkRat 1 2) [0] 2 ≤
      RagQuery.mmrScore
      [{ item_id := 1, kind := "info", name := "a", chunk_ix := 0, chunk_text := "t",
         dist := 0, sim := 1 },
       { item_id := 2, kind := "info", name := "b", chunk_ix := 0, chunk_text := "u",
         dist := 1, sim := 0 },
       { item_id := 1, kind := "info", name := "a", chunk_ix := 1, chunk_text := "v",
         dist := 0, sim := 1 }] (mkRat 1 2) [0] 1 :=
  ((C3_theorem
    [{ item_id := 1, kind := "info", name := "a", chunk_ix := 0, chunk_text := "t",
       dist := 0, sim := 1 },
     { item_id := 2, kind := "info", name := "b", chunk_ix := 0, chunk_text := "u",
       dist := 1, sim := 0 },
     { item_id := 1, kind := "info", name := "a", chunk_ix := 1, chunk_text := "v",
       dist := 0, sim := 1 }] (mkRat 1 2) none [0]
    (fun it => if it = 1 then 1 else 0) 1 (by decide)).2.1) 2 (by decide) (by decide)
    (by decide)

/-- C4: with `lambda = 1`, `k ≥ 1`, bounded similarities (cosine similarities
are `≥ -1`) and a valid cap (non-negative or unset; negative caps are
rejected as configuration errors by the spec), the selection equals the
greedy top-K by similarity subject only to the per-group cap. -/
theorem C4_theorem :
    ∀ (cands : List Chunk) (k : Int) (cap : Option Int),
    1 ≤ k → (∀ c ∈ cands, -1 ≤ c.sim) → RagQuery.capSkip cap 0 = false →
    RagQuery.mmr_select cands k 1 cap = SpecModel.topK_by_sim cands k cap := by
  intro cands k cap hk hsim hcap0
  exact mmr_select_eq_topK cands k cap hk hsim hcap0

/-- C4 witness: lambda = 1 equals greedy capped top-K at a concrete pool
where the MMR path and the cap interact (two groups, cap 1, k = 2). -/
theorem C4_witness :
    RagQuery.mmr_select
      [{ item_id := 1, kind := "info", name := "a", chunk_ix := 0, chunk_text := "t",
         dist := 0, sim := mkRat 9 10 },
       { item_id := 1, kind := "info", name := "a", chunk_ix := 1, chunk_text := "u",
         dist := 0, sim := mkRat 85 100 },
       { item_id := 2, kind := "info", name := "b", chunk_ix := 0, chunk_text := "v",
         dist := 0, sim := mkRat 8 10 }] 2 1 (some 1) =
      SpecModel.topK_by_sim
      [{ item_id := 1, kind := "info", name := "a", chunk_ix := 0, chunk_text := "t",
         dist := 0, sim := mkRat 9 10 },
       { item_id := 1, kind := "info", name := "a", chunk_ix := 1, chunk_text := "u",
         dist := 0, sim := mkRat 85 100 },
       { item_id := 2, kind := "info", name := "b", chunk_ix := 0, chunk_text := "v",
         dist := 0, sim := mkRat 8 10 }] 2 (some 1) :=
  C4_theorem
    [{ item_id := 1, kind := "info", name := "a", chunk_ix := 0, chunk_text := "t",
       dist := 0, sim := mkRat 9 10 },
     { item_id := 1, kind := "info", name := "a", chunk_ix := 1, chunk_text := "u",
       dist := 0, sim := mkRat 85 100 },
     { item_id := 2, kind := "info", name := "b", chunk_ix := 0, chunk_text := "v",
       dist := 0, sim := mkRat 8 10 }] 2 (some 1) (by decide) (by decide) (by decide)

/-- C5: increasing `k` (all else fixed) never removes or reorders previously
selected candidates - the selection for the smaller `k` is a prefix of the
selection for the larger `k`, i.e. the larger run only appends new picks. -/
theorem C5_theorem :
    ∀ (cands : List Chunk) (lam : ℚ) (cap : Option Int) (k k' : Int), k ≤ k' →
    ∃ t, RagQuery.mmr_select cands k' lam cap = RagQuery.mmr_select cands k lam cap ++ t := by
  intro cands lam cap k k' hk
  exact RagQuery.mmr_select_mono cands lam cap hk

/-- C5 witness: prefix stability from k = 1 to k = 3 at a concrete pool. -/
theorem C5_witness :
    ∃ t, RagQuery.mmr_select
      [{ item_id := 1, kind := "info", name := "a", chunk_ix := 0, chunk_text := "t",
         dist := 0, sim := mkRat 9 10 },
       { item_id := 1, kind := "info", name := "a", chunk_ix := 1, chunk_text := "u",
         dist := 0, sim := mkRat 85 100 },
       { item_id := 2, kind := "info", name := "b", chunk_ix := 0, chunk_text := "v",
         dist := 0, sim := mkRat 8 10 }] 3 (mkRat 1 2) (some 2) =
      RagQuery.mmr_select
      [{ item_id := 1, kind := "info", name := "a", chunk_ix := 0, chunk_text := "t",
         dist := 0, sim := mkRat 9 10 },
       { item_id := 1, kind := "info", name := "a", chunk_ix := 1, chunk_text := "u",
         dist := 0, sim := mkRat 85 100 },
       { item_id := 2, kind := "info", name := "b", chunk_ix := 0, chunk_text := "v",
         dist := 0, sim := mkRat 8 10 }] 1 (mkRat 1 2) (some 2) ++ t :=
  C5_theorem
    [{ item_id := 1, kind := "info", name := "a", chunk_ix := 0, chunk_text := "t",
       dist := 0, sim := mkRat 9 10 },
     { item_id := 1, kind := "info", name := "a", chunk_ix := 1, chunk_text := "u",
       dist := 0, sim := mkRat 85 100 },
     { item_id := 2, kind := "info", name := "b", chunk_ix := 0, chunk_text := "v",
       dist := 0, sim := mkRat 8 10 }] (mkRat 1 2) (some 2) 1 3 (by decide)

/-- The `rag_query.py` normalizer keeps exactly the rows whose similarity is
at least the threshold (it drops `sim < t`, a strict comparison). -/
lemma score_convert_filter (t : ℚ) : ∀ rows : List Row,
    RagQuery.score_convert (some t) rows =
      (rows.map toChunk).filter (fun c => decide (t ≤ c.sim)) := by
  intro rows
  induction rows with
  | nil => rfl
  | cons r rs ih =>
    by_cases h : (1 - r.dist) < t
    · have hd : RagQuery.minSimDrop (some t) (1 - r.dist) = true := by
        simp [RagQuery.minSimDrop, h]
      have hf : decide (t ≤ (toChunk r).sim) = false := by
        have hc : (toChunk r).sim = 1 - r.dist := rfl
        rw [hc]
        simp only [decide_eq_false_iff_not, not_le]
        exact h
      simp only [RagQuery.score_convert, List.map_cons, List.filter_cons, hd, hf]
      simp [ih]
    · have hd : RagQuery.minSimDrop (some t) (1 - r.dist) = false := by
        simp only [RagQuery.minSimDrop, decide_eq_false_iff_not]
        exact h
      have hf : decide (t ≤ (toChunk r).sim) = true := by
        have hc : (toChunk r).sim = 1 - r.dist := rfl
        rw [hc]
        simp only [decide_eq_true_eq]
        exact le_of_not_lt h
      simp only [RagQuery.score_convert, List.map_cons, List.filter_cons, hd, hf]
      simp [ih]

/-- The `main.py` normalizer's selector-facing list: every fetched row,
unfiltered. -/
lemma score_convert_main_cands : ∀ rows : List Row,
    (MainPy.score_convert rows).2 = rows.map toChunk := by
  intro rows
  induction rows with
  | nil => rfl
  | cons r rs ih =>
    simp only [MainPy.score_convert, List.map_cons]
    simp [ih]

/-- The `main.py` normalizer's intuition list: rows whose similarity is
STRICTLY above the hard-coded 0.60 threshold. -/
lemma score_convert_main_intuition : ∀ rows : List Row,
    (MainPy.score_convert rows).1 =
      (rows.map toChunk).filter (fun c => decide (mkRat 60 100 < c.sim)) := by
  intro rows
  induction rows with
  | nil => rfl
  | cons r rs ih =>
    by_cases h : (toChunk r).sim > mkRat 60 100
    · have hf : decide (mkRat 60 100 < (toChunk r).sim) = true := by
        simp only [decide_eq_true_eq]
        exact h
      simp only [MainPy.score_convert, List.map_cons, List.filter_cons, hf]
      simp [ih, h]
    · have hf : decide (mkRat 60 100 < (toChunk r).sim) = false := by
        simp only [decide_eq_false_iff_not, not_lt]
        exact le_of_not_lt h
      simp only [MainPy.score_convert, List.map_cons, List.filter_cons, hf]
      simp [ih, h]

/-- C6 counterexample: in `main.py`'s `search_rag_context` the candidate list
handed to the selector is NOT threshold-filtered: with similarities
`[0.9, 0.5, 0.7]` all three rows (including the 0.5 one, strictly below the
0.60 threshold) reach the selector, which selects all three; moreover a row
with similarity exactly 0.60 is excluded from the intuition list even though
the claim says equal-to-threshold candidates reach the selector. -/
theorem C6_counterexample :
    ((MainPy.score_convert
      [{ item_id := 1, kind := "info", name := "a", chunk_ix := 0, chunk_text := "x",
         dist := mkRat 1 10 },
       { item_id := 2, kind := "info", name := "b", chunk_ix := 0, chunk_text := "y",
         dist := mkRat 1 2 },
       { item_id := 3, kind := "info", name := "c", chunk_ix := 0, chunk_text := "z",
         dist := mkRat 3 10 }]).2).map Chunk.sim =
      [mkRat 9 10, mkRat 1 2, mkRat 7 10] ∧
    (MainPy.mmr_select (MainPy.score_convert
      [{ item_id := 1, kind := "info", name := "a", chunk_ix := 0, chunk_text := "x",
         dist := mkRat 1 10 },
       { item_id := 2, kind := "info", name := "b", chunk_ix := 0, chunk_text := "y",
         dist := mkRat 1 2 },
       { item_id := 3, kind := "info", name := "c", chunk_ix := 0, chunk_text := "z",
         dist := mkRat 3 10 }]).2 12 (mkRat 1 2) (some 8)).length = 3 ∧
    (MainPy.score_convert
      [{ item_id := 4, kind := "info", name := "d", chunk_ix := 0, chunk_text := "w",
         dist := mkRat 2 5 }]).1 = [] := by
  refine ⟨by decide, by decide, by decide⟩

/-- C6 (amended): in `rag_query.py`, when `--min-sim` is set, exactly the
candidates with similarity (`1 - dist`) strictly below the threshold are
dropped before reranking - equal-or-above rows reach the selector, and with
threshold 0.6 and similarities `[0.9, 0.5, 0.7]` exactly the 0.9 and 0.7 rows
survive.  In `main.py`'s `search_rag_context`, however, the selector's
candidate list is not threshold-filtered at all, and only the side
`intuition_rags` list is filtered, keeping similarities STRICTLY above 0.60. -/
theorem C6_theorem :
    (∀ (t : ℚ) (rows : List Row),
      RagQuery.score_convert (some t) rows =
        (rows.map toChunk).filter (fun c => decide (t ≤ c.sim))) ∧
    (∀ rows : List Row, (MainPy.score_convert rows).2 = rows.map toChunk) ∧
    (∀ rows : List Row,
      (MainPy.score_convert rows).1 =
        (rows.map toChunk).filter (fun c => decide (mkRat 60 100 < c.sim))) ∧
    (RagQuery.score_convert (some (mkRat 6 10))
      [{ item_id := 1, kind := "info", name := "a", chunk_ix := 0, chunk_text := "x",
         dist := mkRat 1 10 },
       { item_id := 2, kind := "info", name := "b", chunk_ix := 0, chunk_text := "y",
         dist := mkRat 1 2 },
       { item_id := 3, kind := "info", name := "c", chunk_ix := 0, chunk_text := "z",
         dist := mkRat 3 10 }]).map Chunk.sim = [mkRat 9 10, mkRat 7 10] := by
  refine ⟨score_convert_filter, score_convert_main_cands, score_convert_main_intuition,
    by decide⟩

/-- C7 counterexample: the claim describes the assembled document with a
single blank line before each section marker, but `build_prompt` joins with
`"\n\n"` while both markers already begin with their own `"\n"`, so the
document the code produces is a different string. -/
theorem C7_counterexample :
    RagQuery.build_prompt
      [{ item_id := 5, kind := "g", name := "5", chunk_ix := 0, chunk_text := "hello",
         dist := 0, sim := 1 }] (some "H") (some "F") true ≠
      "H\n\n--- Retrieved context ---\n\n[g:5#0]\nhello\n\n--- Instructions ---\n\nF" := by
  decide

/-- C7 (amended): the Assembler on header "H", footer "F", citation on and the
single fragment `(kind="g", name="5", chunk_ix=0, text="hello")` produces
exactly the document with TWO blank lines before each section marker (each
marker string carries its own leading newline, and fragments are joined with
a blank line): header, blank, blank, context marker, blank, tag line, hello,
blank, blank, instructions marker, blank, footer. -/
theorem C7_theorem :
    RagQuery.build_prompt
      [{ item_id := 5, kind := "g", name := "5", chunk_ix := 0, chunk_text := "hello",
         dist := 0, sim := 1 }] (some "H") (some "F") true =
      "H\n\n\n--- Retrieved context ---\n\n[g:5#0]\nhello\n\n\n--- Instructions ---\n\nF" := by
  decide

/-- C8 counterexample: in `main.py`'s assembler the retrieved-context marker
sits inside the `if header:` block, and the service's `search_rag_context`
calls it with no header - so the assembled document for a selection contains
no retrieved-context marker at all: the whole document is the bare fragment,
the marker is not among the emitted lines, and the marker text is not an
infix of the document. -/
theorem C8_counterexample :
    MainPy.build_prompt
      [{ item_id := 5, kind := "g", name := "5", chunk_ix := 0, chunk_text := "hello",
         dist := 0, sim := 1 }] none none true = "[g:5#0]\nhello" ∧
    "\n--- Retrieved context ---" ∉ MainPy.build_prompt_lines
      [{ item_id := 5, kind := "g", name := "5", chunk_ix := 0, chunk_text := "hello",
         dist := 0, sim := 1 }] none none true ∧
    ¬("--- Retrieved context ---".toList <:+:
      (MainPy.build_prompt
        [{ item_id := 5, kind := "g", name := "5", chunk_ix := 0, chunk_text := "hello",
           dist := 0, sim := 1 }] none none true).toList) := by
  refine ⟨by decide, by decide, by decide⟩

/-- C8 (amended): the `rag_query.py` assembler always emits the fixed
retrieved-context marker; the `main.py` assembler emits it only when a
(truthy) header is passed; and in both assemblers the fragment lines appear
as one contiguous block in selection order - one line per selected fragment,
produced by mapping over the selection, hence with no reordering, truncation
or deduplication. -/
theorem C8_theorem :
    ∀ (chunks : List Chunk) (header footer : Option String) (cite : Bool),
    ("\n--- Retrieved context ---" ∈ RagQuery.build_prompt_lines chunks header footer cite) ∧
    (strTruthy header = true →
      "\n--- Retrieved context ---" ∈ MainPy.build_prompt_lines chunks header footer cite) ∧
    (∃ pre suf, RagQuery.build_prompt_lines chunks header footer cite =
      pre ++ chunks.map (fun c =>
        (if cite then "[" ++ c.kind ++ ":" ++ c.name ++ "#" ++ toString c.chunk_ix ++ "]"
         else "") ++ "\n" ++ c.chunk_text) ++ suf) ∧
    (∃ pre suf, MainPy.build_prompt_lines chunks header footer cite =
      pre ++ chunks.map (fun c =>
        (if cite then "[" ++ c.kind ++ ":" ++ c.name ++ "#" ++ toString c.chunk_ix ++ "]"
         else "") ++ "\n" ++ c.chunk_text) ++ suf) := by
  intro chunks header footer cite
  refine ⟨?_, ?_, ?_, ?_⟩
  · simp [RagQuery.build_prompt_lines]
  · intro hh
    simp [MainPy.build_prompt_lines, hh]
  · refine ⟨(if strTruthy header then [pyStrip (header.getD "")] else []) ++
      ["\n--- Retrieved context ---"],
      (if strTruthy footer then ["\n--- Instructions ---", pyStrip (footer.getD "")] else []),
      ?_⟩
    simp [RagQuery.build_prompt_lines]
  · refine ⟨(if strTruthy header then [pyStrip (header.getD ""), "\n--- Retrieved context ---"]
      else []),
      (if strTruthy footer then ["\n--- Instructions ---", pyStrip (footer.getD "")] else []),
      ?_⟩
    simp [MainPy.build_prompt_lines]

/-- C8 witness: the marker is emitted by the `main.py` assembler when a
header is present. -/
theorem C8_witness :
    "\n--- Retrieved context ---" ∈ MainPy.build_prompt_lines
      [{ item_id := 5, kind := "g", name := "5", chunk_ix := 0, chunk_text := "hello",
         dist := 0, sim := 1 }] (some "H") none true :=
  (C8_theorem
    [{ item_id := 5, kind := "g", name := "5", chunk_ix := 0, chunk_text := "hello",
       dist := 0, sim := 1 }] (some "H") none true).2.1 (by decide)

/-- C9 counterexample: two runs of the intuition-path retrieval on the SAME
question (same fetched rows) produce DIFFERENT context documents depending on
what was handled before: the process-global `intuition_rags` list accumulated
a chunk from an earlier, unrelated request, and that chunk is selected into
the later document. -/
theorem C9_counterexample :
    (MainPy.search_rag_context
      [{ item_id := 1, kind := "info", name := "a", chunk_ix := 0, chunk_text := "AAA",
         dist := mkRat 1 10, sim := mkRat 9 10 }]
      [{ item_id := 2, kind := "info", name := "b", chunk_ix := 0, chunk_text := "BBB",
         dist := mkRat 1 5 }] true false).2 ≠
    (MainPy.search_rag_context []
      [{ item_id := 2, kind := "info", name := "b", chunk_ix := 0, chunk_text := "BBB",
         dist := mkRat 1 5 }] true false).2 := by
  decide

/-- C9 (amended): the non-intuition path of `search_rag_context` computes its
document from the fetched rows alone - the pre-existing global state never
changes the produced document - but every non-`same_query` call appends the
above-threshold rows to the process. shared `intuition_rags` list, and the
intuition path selects from that accumulated list, so its document depends on
previously handled requests. -/
theorem C9_theorem :
    (∀ (st₁ st₂ : List Chunk) (rows : List Row),
      (MainPy.search_rag_context st₁ rows false false).2 =
        (MainPy.search_rag_context st₂ rows false false).2) ∧
    (∀ (st : List Chunk) (rows : List Row),
      (MainPy.search_rag_context st rows true false).1 =
        st ++ (MainPy.score_convert rows).1) := by
  constructor
  · intro st₁ st₂ rows
    rfl
  · intro st rows
    rfl

/-- C10: the two textually duplicated definitions of `mmr_select` - one in
`rag_query.py`, one in `main.py` - compute the same function: identical
selected indices in identical order for every pool, `k`, lambda and cap. -/
theorem C10_theorem :
    ∀ (cands : List Chunk) (k : Int) (lam : ℚ) (cap : Option Int),
    RagQuery.mmr_select cands k lam cap = MainPy.mmr_select cands k lam cap := by
  intro cands k lam cap
  simp only [RagQuery.mmr_select, MainPy.mmr_select]
  rw [RagQuery.argmax_agree]
  by_cases he : cands.isEmpty
  · rw [if_pos he, if_pos he]
  · rw [if_neg he, if_neg he]
    exact (RagQuery.mmrLoop_agree cands lam cap k _ _ _).symm

section SanityChecks

/-- Scenario A of the spec, as a sanity check of the embedding: three
candidates, two sharing a group, `k=2, cap=1, lam=1/2` select indices 0 and 2. -/
example :
    RagQuery.mmr_select
      [{ item_id := 1, kind := "", name := "", chunk_ix := 0, chunk_text := "", dist := 0, sim := mkRat 9 10 },
       { item_id := 1, kind := "", name := "", chunk_ix := 1, chunk_text := "", dist := 0, sim := mkRat 85 100 },
       { item_id := 2, kind := "", name := "", chunk_ix := 0, chunk_text := "", dist := 0, sim := mkRat 8 10 }]
      2 (mkRat 1 2) (some 1) = [0, 2] := by decide

example : RagQuery.mmr_select [] 5 (mkRat 1 2) (some 2) = [] := by decide

/-- With a nonempty pool and `k = 0` the seed is still selected. -/
example :
    RagQuery.mmr_select
      [{ item_id := 1, kind := "", name := "", chunk_ix := 0, chunk_text := "", dist := 0, sim := mkRat 9 10 }]
      0 (mkRat 1 2) none = [0] := by decide

end SanityChecks
